import Mathlib

/-!
Shallow embedding of the gd-poller activity pipeline (src/gd_poller), covering
the data model (models.py), the priority-queue dispatch loop and watermark logic
of the activity poller (pollers.py), the buffered dispatcher fan-out
(dispatchers.py), and the bounded ancestor walk of the path resolver (apis.py).
Timestamps are modelled as integers (unix microseconds); the float `priority`
field keeps its own component because the code stores both.  Python strings
that the code tests for truthiness (`path`, `removed_path`, `link`, ...) are
modelled as `String`, with `""` standing for both the empty string and `None`.
-/

namespace GdPoller

/-- Shape of `ActivityData.action_detail` (models.py 238): the poller stores
either nothing, a plain string (rename old title, delete reason, ...), or the
removed-parent target tuple `(title, name, mimeType)` of a move. -/
inductive ActionDetail where
  | nodetail
  | text (s : String)
  | targetTuple (title name mime : String)
deriving DecidableEq, Repr

/-- Python truthiness of the stored `action_detail` (`if data.action_detail:`):
`None` and `""` are falsy, a nonempty string and any tuple are truthy. -/
def ActionDetail.toBool : ActionDetail → Bool
  | .nodetail => false
  | .text s => s ≠ ""
  | .targetTuple _ _ _ => true

/-- ActivityData (models.py 229–255), the enriched event flowing through the
pipeline.  `priority` is set by the poll loop to the timestamp value
(pollers.py 502); `__lt__` compares `priority` (models.py 252–255). -/
structure ActivityData where
  timestamp : Int := 0
  timestamp_text : String := ""
  priority : Int := 0
  target : String × String × String := ("", "", "")
  action : String := ""
  actionDetail : ActionDetail := .nodetail
  ancestor : String := ""
  root : String := ""
  path : String := ""
  removed_path : String := ""
  link : String := ""
  is_folder : Bool := false
  poller : String := ""
  size : Int := 0
deriving DecidableEq, Repr

/-- Splitting a character list at every occurrence of `sep`, the semantics of
Python `s.split(sep)` (and of the separator handling inside `pathlib`):
`"a/b" ↦ ["a","b"]`, `"/a" ↦ ["","a"]`, `"" ↦ [""]`. -/
def splitOnChar (sep : Char) : List Char → List (List Char)
  | [] => [[]]
  | c :: rest =>
    let r := splitOnChar sep rest
    if c = sep then [] :: r
    else
      match r with
      | [] => [[c]]
      | g :: gs => (c :: g) :: gs

/-- Joining path components with `/`. -/
def joinWithSlash : List (List Char) → List Char
  | [] => []
  | [g] => g
  | g :: gs => g ++ '/' :: joinWithSlash gs

/-- Python `str(pathlib.Path(p).parent)`: the directory part of `p`, `"."` for
a bare name or the empty path, `"/"` for the root and its direct children. -/
def pathParent (p : String) : String :=
  let comps := (splitOnChar '/' p.data).filter (fun c => c ≠ [] ∧ c ≠ ['.'])
  let isAbs := match p.data with | '/' :: _ => true | _ => false
  match comps with
  | [] => if isAbs then "/" else "."
  | [_] => if isAbs then "/" else "."
  | _ =>
    (if isAbs then "/" else "") ++ String.mk (joinWithSlash comps.dropLast)

/-- Python `s.partition(sep)[-1]` for a one-character separator: the substring
after the first occurrence of `sep`, or `""` when `sep` does not occur. -/
def partitionTailChars (sep : Char) : List Char → List Char
  | [] => []
  | c :: rest => if c = sep then rest else partitionTailChars sep rest

/-- `s.partition("/")[-1]`, the form used throughout pollers.py. -/
def partitionTail (s : String) : String :=
  String.mk (partitionTailChars '/' s.data)

/-- ASCII lowering of one character, the effect of Python `str.lower` on the
extensions compared here. -/
def lowerChar (c : Char) : Char :=
  if 'A' ≤ c ∧ c ≤ 'Z' then Char.ofNat (c.toNat + 32) else c

/-- Python `Path(p).suffix.lower()` as used by the buffered dispatchers:
the extension (with dot) of the final path component, lowered; `""` when the
final component has no dot strictly inside it. -/
def pathSuffix (p : String) : String :=
  let name := ((splitOnChar '/' p.data).filter (fun c => c ≠ [])).getLastD []
  match ((List.range name.length).filter
      (fun i => name.getD i ' ' = '.')).getLast? with
  | some i =>
    if 0 < i ∧ i < name.length - 1 then String.mk ((name.drop i).map lowerChar)
    else ""
  | none => ""

/-- The poller dispatch queue `queue.PriorityQueue` (pollers.py 239, 330, 506),
modelled through the extract-min contract of heapq over `ActivityData.__lt__`
(models.py 252–255), which orders events by `priority`.  `pq_get` removes a
minimal-priority element; heapq breaks priority ties by heap layout, here by
list position. -/
def pq_get : List ActivityData → Option (ActivityData × List ActivityData)
  | [] => none
  | e :: rest =>
    match pq_get rest with
    | none => some (e, [])
    | some (m, rest') =>
      if e.priority ≤ m.priority then some (e, rest) else some (m, e :: rest')

/-- `PriorityQueue.put` (pollers.py 506): adds the event to the queue. -/
def pq_put (q : List ActivityData) (e : ActivityData) : List ActivityData :=
  q ++ [e]

/-- One iteration of the inner polling loop of `ActivityPoller._poll`
(pollers.py 461–508), restricted to the watermark `timestamps[0]`.
`now` is the wall clock read in the iteration, `queryResult` the outcome of
`query.execute`: `.error` is a transport failure, which breaks the iteration
leaving the watermark untouched (pollers.py 475–481); an empty activity list
also leaves it untouched (pollers.py 483–494); otherwise the watermark is set
to the end bound `now - polling_delay` (pollers.py 464–466, 497). -/
def pollStep (watermark delay now : Int)
    (queryResult : Except Unit (List ActivityData)) : Int :=
  match queryResult with
  | .error _ => watermark
  | .ok activities => if activities.isEmpty then watermark else now - delay

/-- Python `data.action_detail[1].partition("/")[-1]` from the coercion branch
of `ActivityPoller._dispatch` (pollers.py 426).  For the move tuple this is the
tail of `name`; for a string detail, Python indexes the second character
(raising `IndexError` on shorter strings, modelled as `.error`); `None` would
raise as well but the call site is guarded by truthiness. -/
def detailIndexPartition : ActionDetail → Except Unit String
  | .targetTuple _ name _ => .ok (partitionTail name)
  | .text s =>
    if 1 < s.length then .ok (partitionTail (String.mk [s.data.getD 1 ' ']))
    else .error ()
  | .nodetail => .error ()

/-- The reconciliation step of `ActivityPoller._dispatch` (pollers.py 420–434):
Python `match bool(data.path), bool(data.removed_path)`.  `.ok none` means the
event is skipped with no dispatcher called; `.ok (some d)` means `d` proceeds
to the per-dispatcher delivery loop; `.error ()` models an exception raised
while re-synthesising the link, caught by the outer handler of `_dispatch`
(pollers.py 440–441), so the event is not delivered either. -/
def reconcile (data : ActivityData) : Except Unit (Option ActivityData) :=
  if data.path = "" then
    if data.removed_path = "" then
      .ok none
    else
      let d := { data with
        path := data.removed_path, removed_path := "", action := "delete" }
      if d.actionDetail.toBool then
        match detailIndexPartition d.actionDetail with
        | .error _ => .error ()
        | .ok tid =>
          .ok (some { d with
            link := "https://drive.google.com/drive/folders/" ++ tid,
            actionDetail :=
              .text ("Moved but can not access: " ++ data.target.2.1) })
      else .ok (some d)
  else .ok (some data)

/-- A dispatcher `dispatch` coroutine as seen by the poller: it either returns
or raises. -/
def DispatchFun : Type := ActivityData → Except Unit Unit

/-- The per-dispatcher fan-out of `ActivityPoller._dispatch`
(pollers.py 435–441): the `for dispatcher in self.dispatcher_list` loop runs
inside the single try/except of `_dispatch`, so a raising `dispatch` aborts the
loop.  Returns how many dispatchers had `dispatch` invoked for the event. -/
def fanOutCalls : List DispatchFun → ActivityData → Nat
  | [], _ => 0
  | d :: rest, e =>
    match d e with
    | .ok _ => fanOutCalls rest e + 1
    | .error _ => 1

/-- The dispatch loop (`ActivityPoller.dispatch` / `_dispatch`,
pollers.py 316–444) over a queue drained into the given event order: every
exception escaping the fan-out is caught and logged at the `_dispatch` frame
(pollers.py 440–441), so each queued event gets its own fan-out attempt. -/
def dispatchLoop (ds : List DispatchFun) : List ActivityData → List Nat
  | [] => []
  | e :: rest => fanOutCalls ds e :: dispatchLoop ds rest

/-- `OrderedDict` setdefault-and-append used by `BufferedDispatcher.dispatch`
(dispatchers.py 67–68): appends `d` to the list stored under `key`, creating
the entry at the end when the key is new. -/
def bufAppend (buf : List (String × List ActivityData)) (key : String)
    (d : ActivityData) : List (String × List ActivityData) :=
  match buf with
  | [] => [(key, [d])]
  | (k, l) :: rest =>
    if k = key then (k, l ++ [d]) :: rest else (k, l) :: bufAppend rest key d

/-- `BufferedDispatcher.dispatch` (dispatchers.py 55–68).  The in-place
mutation of the caller `data` (`data.removed_path = ""`) is modelled by
returning the updated event next to the new buffer.  `data_delete` is
`data.model_copy()` with `action = "delete"` and `removed_path = ""`; note the
code never reassigns its `path`. -/
def bufferedDispatch (buf : List (String × List ActivityData))
    (data : ActivityData) :
    List (String × List ActivityData) × ActivityData :=
  if data.removed_path = "" then
    (bufAppend buf (pathParent data.path) data, data)
  else
    let dataDelete := { data with action := "delete", removed_path := "" }
    let dataCleared := { data with removed_path := "" }
    let buf' := bufAppend buf (pathParent dataCleared.path) dataCleared
    (bufAppend buf' (pathParent dataDelete.path) dataDelete, dataCleared)

/-- A `buffered_dispatch` coroutine as seen by the flush loop: it either
returns or raises. -/
def DeliverFun : Type := String × List ActivityData → Except Unit Unit

/-- The flush tick of `BufferedDispatcher.on_start` (dispatchers.py 80–86):
`for _ in range(len(self.folder_buffer))`, each step popping the FIFO entry
(`popitem(last=False)` is evaluated before `buffered_dispatch` is awaited) and
swallowing any exception from the delivery.  Returns the remaining buffer and
the entries handed to `buffered_dispatch`, in order. -/
def flushSteps (deliver : DeliverFun) :
    Nat → List (String × List ActivityData) →
    List (String × List ActivityData) × List (String × List ActivityData)
  | 0, buf => (buf, [])
  | _ + 1, [] => ([], [])
  | n + 1, entry :: rest =>
    match deliver entry with
    | .ok _ =>
      let r := flushSteps deliver n rest
      (r.1, entry :: r.2)
    | .error _ =>
      let r := flushSteps deliver n rest
      (r.1, entry :: r.2)

/-- One whole flush tick: the loop bound is the buffer length snapshot taken
when `range(len(self.folder_buffer))` is evaluated (dispatchers.py 80). -/
def flushTick (buf : List (String × List ActivityData)) (deliver : DeliverFun) :
    List (String × List ActivityData) × List (String × List ActivityData) :=
  flushSteps deliver buf.length buf

/-- One assignment `dict[k] = v` on a Python dict modelled as an association
list: an existing key keeps its position and gets the new value, a new key is
appended (insertion order is preserved, as in CPython dicts). -/
def dictAssign (m : List (String × ActivityData)) (k : String)
    (v : ActivityData) : List (String × ActivityData) :=
  match m with
  | [] => [(k, v)]
  | (k', v') :: rest =>
    if k' = k then (k', v) :: rest else (k', v') :: dictAssign rest k v

/-- Python `dict[k]` access (as `Option`): the value stored under `k`. -/
def dictGet (m : List (String × ActivityData)) (k : String) :
    Option ActivityData :=
  (m.find? (fun q => q.1 == k)).map (fun q => q.2)

/-- The dict comprehension `{act.path: act for act in activities}` shared by
`GDSBroadcastDispatcher.buffered_dispatch` (dispatchers.py 151),
`MultiServerDispatcher.buffered_dispatch` (390),
`JellyfinDispatcher.buffered_dispatch` (527) and
`StashDispatcher.buffered_dispatch` (576). -/
def actsByPath (acts : List ActivityData) : List (String × ActivityData) :=
  acts.foldl (fun m a => dictAssign m a.path a) []

/-- `acts_by_path.values()` (equivalently iterating the dict keys and
indexing), in key insertion order. -/
def actsByPathValues (acts : List ActivityData) : List ActivityData :=
  (actsByPath acts).map (fun q => q.2)

/-- `GDSBroadcastDispatcher.ALLOWED_ACTIONS` (dispatchers.py 144). -/
def GDS_ALLOWED_ACTIONS : List String :=
  ["create", "move", "rename", "restore", "delete"]

/-- `GDSBroadcastDispatcher.INFO_EXTENSIONS` (dispatchers.py 145). -/
def INFO_EXTENSIONS : List String := [".json", ".yaml", ".yml", ".nfo"]

/-- The bucket state of the classification loop in
`GDSBroadcastDispatcher.buffered_dispatch` (dispatchers.py 152–185):
`deletes["file"]`, `deletes["folder"]`, `files`, `folders`, `info_files`
(each non-delete bucket entry keeps its `mode`). -/
structure GdsBuckets where
  deletesFile : List ActivityData := []
  deletesFolder : List ActivityData := []
  files : List (String × ActivityData) := []
  folders : List (String × ActivityData) := []
  infoFiles : List (String × ActivityData) := []
deriving DecidableEq, Repr

/-- One step of the classification loop body (dispatchers.py 156–185). -/
def gdsClassifyStep (st : GdsBuckets) (act : ActivityData) : GdsBuckets :=
  if act.action ∉ GDS_ALLOWED_ACTIONS then st
  else if act.action = "create" ∧ act.is_folder then st
  else if act.action = "delete" then
    if pathSuffix act.path ∈ INFO_EXTENSIONS then st
    else if act.is_folder then
      { st with deletesFolder := st.deletesFolder ++ [act] }
    else { st with deletesFile := st.deletesFile ++ [act] }
  else if ¬ act.is_folder ∧ pathSuffix act.path ∈ INFO_EXTENSIONS then
    { st with infoFiles := st.infoFiles ++ [("REFRESH", act)] }
  else if act.is_folder then
    { st with folders := st.folders ++ [("ADD", act)] }
  else { st with files := st.files ++ [("ADD", act)] }

/-- The classification loop over the deduplicated activities. -/
def gdsClassify (acts : List ActivityData) : GdsBuckets :=
  acts.foldl gdsClassifyStep {}

/-- The target list built by `GDSBroadcastDispatcher.buffered_dispatch`
(dispatchers.py 147–209): classification over `acts_by_path`, the delete
collapse (186–201), then at most the first of `files + folders + info_files`
(202–207).  Each entry is `(path, mode)` handed to `broadcast`. -/
def gdsTargets (parent : String) (activities : List ActivityData) :
    List (String × String) :=
  let st := gdsClassify (actsByPathValues activities)
  let deleteTargets :=
    if st.deletesFile ≠ [] ∧
        st.deletesFile.length + st.deletesFolder.length > 1 then
      [(parent, "REMOVE_FOLDER")]
    else
      (st.deletesFile ++ st.deletesFolder).map (fun act =>
        (act.path, if act.is_folder then "REMOVE_FOLDER" else "REMOVE_FILE"))
  let nonDeletes := st.files ++ st.folders ++ st.infoFiles
  deleteTargets ++
    (match nonDeletes with
     | [] => []
     | (mode, act) :: _ => [(act.path, mode)])

/-- The update list built by `JellyfinDispatcher.buffered_dispatch`
(dispatchers.py 524–556): folders are skipped, actions are translated to
Jellyfin update types, paths are passed through `get_mapping_path`
(modelled by the `mapping` argument). -/
def jellyfinUpdates (mapping : String → String) (activities : List ActivityData) :
    List (String × String) :=
  (actsByPathValues activities).foldl (fun updates act =>
    if act.is_folder then updates
    else if act.action = "delete" then
      updates ++ [(mapping act.path, "Deleted")]
    else if act.action = "create" ∨ act.action = "move" then
      updates ++ [(mapping act.path, "Created")]
    else if act.action = "edit" then
      updates ++ [(mapping act.path, "Modified")]
    else updates) []

/-- The `(updates, deletes)` path buckets of `StashDispatcher.buffered_dispatch`
(dispatchers.py 571–584). -/
def stashBuckets (mapping : String → String) (activities : List ActivityData) :
    List String × List String :=
  (actsByPathValues activities).foldl (fun buckets act =>
    if act.is_folder then buckets
    else if act.action = "delete" then
      (buckets.1, buckets.2 ++ [mapping act.path])
    else (buckets.1 ++ [mapping act.path], buckets.2)) ([], [])

/-- The `deletes` buckets of `MultiServerDispatcher.buffered_dispatch`
(dispatchers.py 390–400): `(deletes["file"], deletes["folder"])`. -/
def multiServerDeletes (activities : List ActivityData) :
    List ActivityData × List ActivityData :=
  (actsByPathValues activities).foldl (fun buckets act =>
    if act.action = "delete" then
      if act.is_folder then (buckets.1, buckets.2 ++ [act])
      else (buckets.1 ++ [act], buckets.2)
    else buckets) ([], [])

/-- pydantic v2 keyword construction `ActivityData(**kwargs)` over the model
of models.py 230–245: the fields `activity`, `timestamp`, `target` and
`action` have no default, so pydantic raises `ValidationError` (modelled as
`.error`) whenever one of them is not supplied.  The raw `activity` dict lies
outside this embedding, so only its presence is modelled (`Option Unit`). -/
def activityDataNew (activity : Option Unit) (timestamp : Option Int)
    (target : Option (String × String × String)) (action : Option String)
    (path : String) (isFolder : Bool) : Except Unit ActivityData :=
  match activity, timestamp, target, action with
  | some _, some ts, some tg, some ac =>
    .ok { timestamp := ts, target := tg, action := ac,
          path := path, is_folder := isFolder }
  | _, _, _, _ => .error ()

/-- `MultiServerDispatcher.buffered_dispatch` (dispatchers.py 387–409) up to
the sub-dispatcher fan-out: the events are keyed by path, `parent_activity`
is constructed at line 394 — `ActivityData(path=parent, is_folder=True)`
supplies none of the required fields, so pydantic raises `ValidationError`
there, before the keyed events are consumed — and the `deleted_targets`
selection (401–409) applies the same collapse rule as the GDS broadcast,
its collapsed target (line 404) again supplying only
`path`, `is_folder` and `action`. -/
def multiServerDeletedTargets (parent : String)
    (activities : List ActivityData) : Except Unit (List ActivityData) := do
  let _actList := actsByPathValues activities
  let _parentActivity ← activityDataNew none none none none parent true
  let buckets := multiServerDeletes activities
  if buckets.1 ≠ [] ∧ buckets.1.length + buckets.2.length > 1 then
    let collapsed ← activityDataNew none none none (some "delete") parent true
    return [collapsed]
  else
    return buckets.1 ++ buckets.2

/-- The fields of a Drive `files.get` record used by
`GoogleDrive.get_full_path` (apis.py 260–320); every field is accessed with
`.get`, hence the `Option`s. -/
structure DriveFile where
  id : Option String := none
  name : Option String := none
  parents : List String := []
  webViewLink : Option String := none
  size : Option Int := none
deriving DecidableEq, Repr

/-- The ancestor walk of `GoogleDrive.get_full_path` (apis.py 277–290):
`break_counter = 100; while (parents := file.get("parents")) and
break_counter > 0: ...`.  Walks the first parent pointer of `file`, fetching
each ancestor, and returns the `(name, id)` entries appended to
`current_path` (in append order) — `none` when a fetch fails — paired with the
number of `get_file` fetches the walk performed.  The recursion is on the
break counter, exactly the mechanism bounding the loop in the source. -/
def ancestorWalk (fetch : String → Option DriveFile) (ancestorId root : String) :
    Nat → DriveFile → Option (List (Option String × Option String)) × Nat
  | 0, _ => (some [], 0)
  | counter + 1, file =>
    match file.parents with
    | [] => (some [], 0)
    | p :: _ =>
      match fetch p with
      | none => (none, 1)
      | some f =>
        if root ≠ "" ∧ f.id = some ancestorId then
          (some [(some root, some ancestorId)], 1)
        else
          let r := ancestorWalk fetch ancestorId root counter f
          (r.1.map (fun l => (f.name, f.id) :: l), r.2 + 1)

/-- Python `pathlib.Path(*segments)` rendered as a string: segments are joined
with `/`, a segment that is itself absolute restarts the path, and the empty
join renders as `"."`. -/
def pyPathJoin (segments : List String) : String :=
  let s := segments.foldl (fun acc seg =>
    let isAbs := match seg.data with | '/' :: _ => true | _ => false
    if isAbs then seg
    else if acc = "" then seg
    else acc ++ "/" ++ seg) ""
  if s = "" then "." else s

/-- The shared-drive root normalisation of `get_full_path` (apis.py 291–293):
when the terminal ancestor id is present and shorter than 20 characters, its
segment becomes `"/<id>"`. -/
def normalizeLastSegment (currentPath : List (Option String × Option String)) :
    List (Option String × Option String) :=
  match currentPath.getLast? with
  | some (_, some lastId) =>
    if lastId ≠ "" ∧ lastId.length < 20 then
      currentPath.dropLast ++ [(some ("/" ++ lastId), some lastId)]
    else currentPath
  | _ => currentPath

/-- `GoogleDrive.get_full_path` (apis.py 260–298), with the remote modelled by
`fetch` (the `get_file` call, which returns `none` on any error) and
instrumented with the total number of `get_file` fetches.  Returns
`(full_path, parent, web_view, size)` or `none`, exactly following the source:
leaf fetch, ancestor walk, last-segment normalisation, reverse join of the
truthy names, and the parent entry `current_path[1]` (or `[0]`). -/
def get_full_path (fetch : String → Option DriveFile)
    (itemId ancestorId root : String) :
    Option (String × (Option String × Option String) × String × Int) × Nat :=
  if itemId = "" then (none, 0)
  else
    match fetch itemId with
    | none => (none, 1)
    | some file =>
      let webView := file.webViewLink.getD ""
      let size := file.size.getD 0
      let walk :=
        if root ≠ "" ∧ itemId = ancestorId then
          (some [(some root, some ancestorId)], 0)
        else
          match ancestorWalk fetch ancestorId root 100 file with
          | (none, n) => (none, n)
          | (some l, n) => (some ((file.name, file.id) :: l), n)
      match walk with
      | (none, n) => (none, n + 1)
      | (some currentPath, n) =>
        let currentPath := normalizeLastSegment currentPath
        let fullPath := pyPathJoin
          (currentPath.reverse.filterMap (fun q =>
            match q.1 with
            | some s => if s = "" then none else some s
            | none => none))
        let parent :=
          if currentPath.length > 1 then (currentPath.get? 1).getD (none, none)
          else currentPath.headD (none, none)
        (some (fullPath, parent, webView, size), n + 1)

/-- The two `dispatch` shapes of the configured dispatcher classes
(dispatchers.py): `buffered` covers `BufferedDispatcher` and its subclasses
(Kavita, GDSTool, Flaskfarmaider, Jellyfin, Stash, MultiServer), whose
inherited `dispatch` clears `removed_path` on the shared event object;
`direct` covers the rest (Dummy, Plexmate, Discord, Rclone, Plex, Command),
whose `dispatch` only reads the event. -/
inductive DispatcherKind where
  | buffered
  | direct
deriving DecidableEq, Repr

/-- The in-place effect of one `dispatch` call on the event object itself:
`BufferedDispatcher.dispatch` runs `data.removed_path = ""` under
`if data.removed_path:` (dispatchers.py 58–63); no other dispatcher assigns to
the event. -/
def dispatchEffect : DispatcherKind → ActivityData → ActivityData
  | .buffered, d =>
    if d.removed_path = "" then d else { d with removed_path := "" }
  | .direct, d => d

/-- The event state observed (at entry) by the dispatcher at position `j` of
the fan-out loop of `ActivityPoller._dispatch` (pollers.py 435–437), which
passes one shared `data` object through the declared dispatcher list. -/
def observedEvent (ds : List DispatcherKind) (e : ActivityData) (j : Nat) :
    ActivityData :=
  (ds.take j).foldl (fun acc k => dispatchEffect k acc) e

/-- A default enriched event, used as concrete input in the examples below. -/
def evDefault : ActivityData := {}

/-- A dispatcher whose `dispatch` returns normally. -/
def dispOk : DispatchFun := fun _ => .ok ()

/-- A dispatcher whose `dispatch` raises. -/
def dispFail : DispatchFun := fun _ => .error ()

/-- A move event whose source side was resolved: the input of the C2 check. -/
def evMove : ActivityData :=
  { action := "move", path := "/MOVIES/new/m.mkv",
    removed_path := "/MOVIES/old/m.mkv" }

/-- An enriched event with the earlier provider timestamp (priority is set to
the timestamp by pollers.py 502). -/
def evEarly : ActivityData := { timestamp := 5, priority := 5 }

/-- An enriched event with the later provider timestamp. -/
def evLate : ActivityData := { timestamp := 10, priority := 10 }

/-- An event whose `path` was cleared by pattern filtering while its
`removed_path` survived: input of the C5 coercion. -/
def evNoPath : ActivityData :=
  { action := "move", removed_path := "/MOVIES/old/m.mkv" }

/-- The synthetic delete that `reconcile` produces from `evNoPath`. -/
def evNoPathCoerced : ActivityData :=
  { evNoPath with
    path := "/MOVIES/old/m.mkv", removed_path := "", action := "delete" }

/-- A dispatcher list whose head is buffered, for the C9 example. -/
def kindsExample : List DispatcherKind := [.buffered, .direct]

/-- The earlier of two delete events sharing one path under one parent: the
concrete multi-server flushed entry of the C10 check. -/
def evDupA : ActivityData := { action := "delete", path := "/p/x.mkv" }

/-- The later event with the same path (distinguished by `size`): the
last-appended event the claim says should determine the flush output. -/
def evDupB : ActivityData := { action := "delete", path := "/p/x.mkv", size := 1 }

/-- The invariant maintained by the GDS classification loop: delete buckets
are split by `is_folder` and every non-delete bucket entry carries mode
`"ADD"` or `"REFRESH"` (dispatchers.py 152–185). -/
def GdsInv (st : GdsBuckets) : Prop :=
  (∀ a ∈ st.deletesFile, a.is_folder = false) ∧
  (∀ a ∈ st.deletesFolder, a.is_folder = true) ∧
  (∀ q ∈ st.files ++ st.folders ++ st.infoFiles, q.1 = "ADD" ∨ q.1 = "REFRESH")

/-- Whether a broadcast target carries one of the two delete modes. -/
def isRemoveMode (t : String × String) : Bool :=
  t.2 == "REMOVE_FOLDER" || t.2 == "REMOVE_FILE"

/-- The representation invariant of the modelled Python dict: each stored
value is keyed by its own `path` and keys are unique. -/
def DictInv (m : List (String × ActivityData)) : Prop :=
  (∀ q ∈ m, q.2.path = q.1) ∧ (m.map Prod.fst).Nodup

theorem flushSteps_all (deliver : DeliverFun) :
    ∀ buf : List (String × List ActivityData),
      flushSteps deliver buf.length buf = ([], buf) := by
  intro buf
  induction buf with
  | nil => rfl
  | cons entry rest ih =>
    show flushSteps deliver (rest.length + 1) (entry :: rest) = ([], entry :: rest)
    unfold flushSteps
    cases deliver entry <;> simp [ih]

/-- C6: in a flush tick of `BufferedDispatcher.on_start`, every parent entry is
popped from the buffer before `buffered_dispatch` is attempted, a raising
delivery does not stop the loop, and popped entries are never re-inserted: for
every buffer and every delivery behaviour the tick ends with an empty buffer
and each entry handed to `buffered_dispatch` exactly once, in FIFO order. -/
theorem flushTick_at_most_once (buf : List (String × List ActivityData))
    (deliver : DeliverFun) : flushTick buf deliver = ([], buf) :=
  flushSteps_all deliver buf

theorem ancestorWalk_fetches_le (fetch : String → Option DriveFile)
    (ancestorId root : String) :
    ∀ (counter : Nat) (file : DriveFile),
      (ancestorWalk fetch ancestorId root counter file).2 ≤ counter := by
  intro counter
  induction counter with
  | zero => intro file; exact Nat.le_refl 0
  | succ n ih =>
    intro file
    obtain ⟨fid, fname, fparents, fweb, fsize⟩ := file
    unfold ancestorWalk
    dsimp only
    cases fparents with
    | nil => exact Nat.zero_le _
    | cons p tl =>
      cases hf : fetch p with
      | none => simp [hf]
      | some f =>
        simp only [hf]
        split
        · exact Nat.succ_le_succ (Nat.zero_le n)
        · exact Nat.succ_le_succ (ih f)

/-- C7: the path resolver terminates on every input, including a remote whose
parent pointers form a cycle, and performs at most 101 `get_file` fetches in
total (the leaf fetch plus at most 100 parent hops bounded by the break
counter). -/
theorem get_full_path_fetch_bound (fetch : String → Option DriveFile)
    (itemId ancestorId root : String) :
    (get_full_path fetch itemId ancestorId root).2 ≤ 101 := by
  unfold get_full_path
  by_cases h0 : itemId = ""
  · simp [h0]
  · simp only [h0, if_false]
    cases fetch itemId with
    | none => simp
    | some file =>
      by_cases hroot : root ≠ "" ∧ itemId = ancestorId
      · simp [hroot]
      · have hwalk := ancestorWalk_fetches_le fetch ancestorId root 100 file
        simp only [hroot, if_false]
        cases hw : ancestorWalk fetch ancestorId root 100 file with
        | mk res n =>
          rw [hw] at hwalk
          cases res <;> simpa using Nat.succ_le_succ hwalk

/-- C2 (code evaluation at the failing input): `BufferedDispatcher.dispatch`
on a move event with a non-empty `removed_path` buffers the original (with
`removed_path` cleared) and a delete variant whose `path` is still the
original `path`, not the removed path — both under the parent of the new
path — because the code never assigns `data_delete.path = data.removed_path`
(dispatchers.py 59–61). -/
theorem bufferedDispatch_move_split_eval :
    bufferedDispatch [] evMove =
      ([("/MOVIES/new",
        [{ evMove with removed_path := "" },
         { evMove with action := "delete", removed_path := "" }])],
       { evMove with removed_path := "" }) ∧
    ({ evMove with action := "delete", removed_path := "" } :
      ActivityData).path ≠ evMove.removed_path := by
  constructor
  · decide
  · decide

/-- C4: across one polling iteration, given that the wall clock has not run
backwards (the previous watermark is at most `now - polling_delay`), the
watermark is monotone non-decreasing, stays at most `now - polling_delay`, is
left unchanged by a transport failure, and whenever it moves at all the query
succeeded with a non-empty activity list and the new value is exactly the end
bound `now - polling_delay`. -/
theorem pollStep_watermark (w delay now : Int)
    (res : Except Unit (List ActivityData)) (hclock : w ≤ now - delay) :
    w ≤ pollStep w delay now res ∧
    pollStep w delay now res ≤ now - delay ∧
    (∀ e : Unit, res = .error e → pollStep w delay now res = w) ∧
    (pollStep w delay now res ≠ w →
      ∃ acts, res = .ok acts ∧ acts ≠ [] ∧
        pollStep w delay now res = now - delay) := by
  cases res with
  | error e =>
    refine ⟨le_refl w, hclock, fun _ _ => rfl, fun hne => absurd rfl hne⟩
  | ok acts =>
    by_cases hempty : acts.isEmpty
    · refine ⟨?_, ?_, ?_, ?_⟩ <;> simp [pollStep, hempty, hclock]
    · refine ⟨?_, ?_, ?_, ?_⟩
      · simpa [pollStep, hempty] using hclock
      · simp [pollStep, hempty]
      · intro e h; exact absurd h (by simp)
      · intro _
        exact ⟨acts, rfl, by simpa using hempty, by simp [pollStep, hempty]⟩

/-- C4 witness: the theorem applied at watermark 0, delay 60, wall clock 120
and a successful query returning one activity. -/
theorem pollStep_watermark_witness :
    (0 : Int) ≤ pollStep 0 60 120 (.ok [evDefault]) ∧
    pollStep 0 60 120 (.ok [evDefault]) ≤ 120 - 60 ∧
    (∀ e : Unit, (Except.ok [evDefault] : Except Unit (List ActivityData)) =
      .error e → pollStep 0 60 120 (.ok [evDefault]) = 0) ∧
    (pollStep 0 60 120 (.ok [evDefault]) ≠ 0 →
      ∃ acts, (Except.ok [evDefault] : Except Unit (List ActivityData)) =
        .ok acts ∧ acts ≠ [] ∧ pollStep 0 60 120 (.ok [evDefault]) = 120 - 60) :=
  pollStep_watermark 0 60 120 (.ok [evDefault]) (by norm_num)

/-- C1 counterexample: with the dispatcher list `[dispFail, dispOk]`, where the
first `dispatch` raises, the fan-out of `ActivityPoller._dispatch` invokes
`dispatch` on only one of the two dispatchers — the exception propagates out
of the `for` loop to the outer handler, so the second dispatcher never
receives the event, contradicting the claim that every configured dispatcher
receives it. -/
theorem fanOut_not_all_receive :
    ¬ (fanOutCalls [dispFail, dispOk] evDefault = [dispFail, dispOk].length) := by
  decide

theorem fanOutCalls_stops_at_failure (d : DispatchFun) (e : ActivityData)
    (hd : d e = .error ()) :
    ∀ ds₁ ds₂ : List DispatchFun, (∀ d' ∈ ds₁, d' e = .ok ()) →
      fanOutCalls (ds₁ ++ d :: ds₂) e = ds₁.length + 1 := by
  intro ds₁
  induction ds₁ with
  | nil => intro ds₂ _; simp [fanOutCalls, hd]
  | cons a rest ih =>
    intro ds₂ hok
    have ha : a e = .ok () := hok a (List.mem_cons_self a rest)
    have hrest : ∀ d' ∈ rest, d' e = .ok () :=
      fun d' hm => hok d' (List.mem_cons_of_mem a hm)
    simp only [List.cons_append, fanOutCalls, ha, List.append_eq,
      ih ds₂ hrest, List.length_cons]

/-- C1 (amended): the dispatch loop calls `dispatch(event)` on the configured
dispatchers in declared order; an exception raised by one dispatcher is caught
and logged at the dispatch-loop frame and does not stop the loop (every later
queued event still gets its own fan-out), but it aborts the fan-out for the
current event: exactly the dispatchers up to and including the raising one are
invoked, and the dispatchers after it do not receive that event. -/
theorem fanOut_failure_contained (ds₁ ds₂ : List DispatchFun) (d : DispatchFun)
    (e : ActivityData) (events : List ActivityData)
    (hd : d e = .error ()) (hok : ∀ d' ∈ ds₁, d' e = .ok ()) :
    fanOutCalls (ds₁ ++ d :: ds₂) e = ds₁.length + 1 ∧
    dispatchLoop (ds₁ ++ d :: ds₂) (e :: events) =
      (ds₁.length + 1) :: dispatchLoop (ds₁ ++ d :: ds₂) events := by
  have h1 := fanOutCalls_stops_at_failure d e hd ds₁ ds₂ hok
  exact ⟨h1, by simp [dispatchLoop, h1]⟩

/-- C1 witness: the amended theorem applied to the list
`[dispOk, dispFail, dispOk]` and two queued events. -/
theorem fanOut_failure_contained_witness :
    fanOutCalls [dispOk, dispFail, dispOk] evDefault = [dispOk].length + 1 ∧
    dispatchLoop [dispOk, dispFail, dispOk] [evDefault, evDefault] =
      ([dispOk].length + 1) ::
        dispatchLoop [dispOk, dispFail, dispOk] [evDefault] :=
  fanOut_failure_contained [dispOk] [dispOk] dispFail evDefault [evDefault]
    rfl (by intro d' hm; rw [List.mem_singleton] at hm; rw [hm]; rfl)

theorem pq_get_eq_none (q : List ActivityData) (h : pq_get q = none) :
    q = [] := by
  cases q with
  | nil => rfl
  | cons a tl =>
    unfold pq_get at h
    cases htl : pq_get tl with
    | none => simp [htl] at h
    | some p =>
      obtain ⟨m, rest'⟩ := p
      rw [htl] at h
      dsimp only at h
      split at h <;> simp at h

theorem pq_get_min (q : List ActivityData) (e : ActivityData)
    (rest : List ActivityData) (h : pq_get q = some (e, rest)) :
    ∀ x ∈ q, e.priority ≤ x.priority := by
  induction q generalizing e rest with
  | nil => simp [pq_get] at h
  | cons a tl ih =>
    unfold pq_get at h
    cases htl : pq_get tl with
    | none =>
      rw [htl] at h
      dsimp only at h
      obtain ⟨rfl, rfl⟩ : a = e ∧ ([] : List ActivityData) = rest := by
        simpa using h
      have : tl = [] := pq_get_eq_none tl htl
      subst this
      intro x hx
      rw [List.mem_singleton] at hx
      subst hx
      exact le_refl _
    | some p =>
      obtain ⟨m, rest'⟩ := p
      rw [htl] at h
      dsimp only at h
      have hmin := ih m rest' htl
      split at h
      next hle =>
        obtain ⟨rfl, rfl⟩ : a = e ∧ tl = rest := by simpa using h
        intro x hx
        rcases List.mem_cons.mp hx with rfl | hx
        · exact le_refl _
        · exact le_trans hle (hmin x hx)
      next hgt =>
        obtain ⟨rfl, rfl⟩ : m = e ∧ a :: rest' = rest := by simpa using h
        intro x hx
        rcases List.mem_cons.mp hx with rfl | hx
        · exact le_of_not_le hgt
        · exact hmin x hx

theorem pq_get_mem (q : List ActivityData) (e : ActivityData)
    (rest : List ActivityData) (h : pq_get q = some (e, rest)) :
    e ∈ q ∧ ∀ x ∈ rest, x ∈ q := by
  induction q generalizing e rest with
  | nil => simp [pq_get] at h
  | cons a tl ih =>
    unfold pq_get at h
    cases htl : pq_get tl with
    | none =>
      rw [htl] at h
      dsimp only at h
      obtain ⟨rfl, rfl⟩ : a = e ∧ ([] : List ActivityData) = rest := by
        simpa using h
      exact ⟨List.mem_cons_self _ _, by simp⟩
    | some p =>
      obtain ⟨m, rest'⟩ := p
      rw [htl] at h
      dsimp only at h
      have hmem := ih m rest' htl
      split at h
      next =>
        obtain ⟨rfl, rfl⟩ : a = e ∧ tl = rest := by simpa using h
        exact ⟨List.mem_cons_self _ _, fun x hx => List.mem_cons_of_mem _ hx⟩
      next =>
        obtain ⟨rfl, rfl⟩ : m = e ∧ a :: rest' = rest := by simpa using h
        refine ⟨List.mem_cons_of_mem _ hmem.1, ?_⟩
        intro x hx
        rcases List.mem_cons.mp hx with rfl | hx
        · exact List.mem_cons_self _ _
        · exact List.mem_cons_of_mem _ (hmem.2 x hx)

/-- C3 counterexample: the later event `evLate` is enqueued and dequeued while
the queue is otherwise empty, then `evEarly` (earlier provider timestamp) is
enqueued and dequeued — so `evLate` is dequeued first from the same queue yet
has the larger timestamp, refuting the claim for events whose enqueue happens
after an earlier dequeue. -/
theorem pq_interleaved_not_ordered :
    pq_get (pq_put [] evLate) = some (evLate, []) ∧
    pq_get (pq_put [] evEarly) = some (evEarly, []) ∧
    ¬ (evLate.timestamp ≤ evEarly.timestamp) := by
  decide

/-- C3 (amended): for every dequeue from the poller priority queue, the
timestamp of the dequeued event is at most the timestamp of every event still in
the queue at that moment — so two dequeues are timestamp-ordered whenever the
second event was already enqueued when the first was dequeued.  The priority
field equals the timestamp for every queued event, as set by the poll loop. -/
theorem pq_dequeue_order (q : List ActivityData) (e e' : ActivityData)
    (rest : List ActivityData) (hget : pq_get q = some (e, rest))
    (hmem : e' ∈ rest) (hpriority : ∀ x ∈ q, x.priority = x.timestamp) :
    e.timestamp ≤ e'.timestamp := by
  have hm := pq_get_mem q e rest hget
  have hmin := pq_get_min q e rest hget e' (hm.2 e' hmem)
  rw [hpriority e hm.1, hpriority e' (hm.2 e' hmem)] at hmin
  exact hmin

/-- C3 witness: the amended theorem applied to the queue `[evLate, evEarly]`,
whose dequeue returns `evEarly` with `evLate` still queued. -/
theorem pq_dequeue_order_witness :
    pq_get [evLate, evEarly] = some (evEarly, [evLate]) ∧
    evEarly.timestamp ≤ evLate.timestamp :=
  ⟨by decide,
   pq_dequeue_order [evLate, evEarly] evEarly evLate [evLate] (by decide)
     (by decide) (by decide)⟩

/-- C5: every event that reaches the per-dispatcher delivery loop has a
non-empty `path`; when pattern filtering or resolution left `path` empty but
`removed_path` non-empty, the delivered event is the synthetic delete — `path`
set to the former `removed_path`, `removed_path` cleared, `action` set to
`"delete"`; when both are empty the event is skipped and no dispatcher is
called. -/
theorem reconcile_delivery (d : ActivityData) :
    (∀ d', reconcile d = .ok (some d') →
      d'.path ≠ "" ∧
      (d.path = "" →
        d'.action = "delete" ∧ d'.path = d.removed_path ∧
          d'.removed_path = "")) ∧
    (d.path = "" → d.removed_path = "" → reconcile d = .ok none) := by
  constructor
  · intro d' h
    unfold reconcile at h
    by_cases hp : d.path = ""
    · by_cases hr : d.removed_path = ""
      · simp [hp, hr] at h
      · simp only [hp, if_true, hr, if_false, if_pos rfl] at h
        split at h
        · split at h
          · exact absurd h (by simp)
          · obtain rfl : _ = d' := by simpa using h
            exact ⟨hr, fun _ => ⟨rfl, rfl, rfl⟩⟩
        · obtain rfl : _ = d' := by simpa using h
          exact ⟨hr, fun _ => ⟨rfl, rfl, rfl⟩⟩
    · simp only [hp, if_false] at h
      obtain rfl : d = d' := by simpa using h
      exact ⟨hp, fun hc => absurd hc hp⟩
  · intro hp hr
    simp [reconcile, hp, hr]

/-- C5 witness: the theorem applied to `evNoPath`, whose `path` was cleared
while `removed_path` survived, and its coerced delivery `evNoPathCoerced`. -/
theorem reconcile_delivery_witness :
    evNoPathCoerced.path ≠ "" ∧ evNoPathCoerced.action = "delete" ∧
    evNoPathCoerced.path = evNoPath.removed_path ∧
    evNoPathCoerced.removed_path = "" :=
  ⟨((reconcile_delivery evNoPath).1 evNoPathCoerced rfl).1,
   ((reconcile_delivery evNoPath).1 evNoPathCoerced rfl).2 rfl⟩

theorem dispatchEffect_buffered_clears (d : ActivityData) :
    (dispatchEffect .buffered d).removed_path = "" := by
  by_cases h : d.removed_path = "" <;> simp [dispatchEffect, h]

theorem dispatchEffect_keeps_cleared (k : DispatcherKind) (d : ActivityData)
    (h : d.removed_path = "") : (dispatchEffect k d).removed_path = "" := by
  cases k with
  | buffered => exact dispatchEffect_buffered_clears d
  | direct => exact h

theorem observedEvent_succ (ds : List DispatcherKind) (e : ActivityData)
    (n : Nat) :
    observedEvent ds e (n + 1) =
      match ds[n]? with
      | some k => dispatchEffect k (observedEvent ds e n)
      | none => observedEvent ds e n := by
  unfold observedEvent
  rw [List.take_succ, List.foldl_append]
  cases h : ds[n]? <;> simp [h]

/-- C9: `BufferedDispatcher.dispatch` mutates the shared event object of the caller,
leaving its `removed_path` empty, and since `ActivityPoller._dispatch` passes
the same object to every configured dispatcher in declared order, every
dispatcher placed after a buffered dispatcher observes an empty
`removed_path` for that event. -/
theorem buffered_clears_removed_path (ds : List DispatcherKind)
    (e : ActivityData) (i j : Nat) (hij : i < j)
    (hi : ds[i]? = some .buffered) :
    (dispatchEffect .buffered e).removed_path = "" ∧
    (observedEvent ds e j).removed_path = "" := by
  refine ⟨dispatchEffect_buffered_clears e, ?_⟩
  obtain ⟨m, rfl⟩ : ∃ m, j = i + 1 + m := by
    refine ⟨j - (i + 1), ?_⟩
    omega
  induction m with
  | zero =>
    rw [observedEvent_succ, hi]
    exact dispatchEffect_buffered_clears _
  | succ n ihn =>
    have heq : i + 1 + (n + 1) = (i + 1 + n) + 1 := by omega
    rw [heq, observedEvent_succ]
    cases hk : ds[i + 1 + n]? with
    | none => exact ihn (by omega)
    | some k => exact dispatchEffect_keeps_cleared k _ (ihn (by omega))

/-- C9 witness: the theorem applied to the list `kindsExample` (a buffered
dispatcher followed by a direct one) and the move event `evMove`. -/
theorem buffered_clears_removed_path_witness :
    (dispatchEffect .buffered evMove).removed_path = "" ∧
    (observedEvent kindsExample evMove 1).removed_path = "" :=
  buffered_clears_removed_path kindsExample evMove 0 1 (by decide) (by decide)

theorem gdsClassifyStep_inv (st : GdsBuckets) (act : ActivityData)
    (h : GdsInv st) : GdsInv (gdsClassifyStep st act) := by
  obtain ⟨h1, h2, h3⟩ := h
  refine ⟨?_, ?_, ?_⟩
  · intro a hm
    unfold gdsClassifyStep at hm
    split_ifs at hm <;> (try dsimp only at hm) <;>
      first
        | exact h1 a hm
        | (rcases List.mem_append.mp hm with hm2 | hm2
           · exact h1 a hm2
           · rw [List.mem_singleton] at hm2
             subst hm2
             simp_all)
  · intro a hm
    unfold gdsClassifyStep at hm
    split_ifs at hm <;> (try dsimp only at hm) <;>
      first
        | exact h2 a hm
        | (rcases List.mem_append.mp hm with hm2 | hm2
           · exact h2 a hm2
           · rw [List.mem_singleton] at hm2
             subst hm2
             simp_all)
  · intro q hm
    unfold gdsClassifyStep at hm
    split_ifs at hm <;> (try dsimp only at hm) <;>
      first
        | exact h3 q hm
        | (simp only [List.append_assoc, List.mem_append,
             List.mem_singleton] at hm
           rcases hm with hm2 | hm2 | hm2 | hm2 <;>
             first
               | (subst hm2; simp)
               | exact h3 q (by
                   simp only [List.append_assoc, List.mem_append]
                   tauto))

theorem gdsClassify_inv (acts : List ActivityData) :
    GdsInv (gdsClassify acts) := by
  suffices h : ∀ (l : List ActivityData) (st : GdsBuckets),
      GdsInv st → GdsInv (l.foldl gdsClassifyStep st) by
    refine h acts {} ⟨?_, ?_, ?_⟩ <;> simp
  intro l
  induction l with
  | nil => intro st h; exact h
  | cons a tl ih => intro st h; exact ih _ (gdsClassifyStep_inv st a h)

/-- C8: for every flushed parent entry of a GDS broadcast dispatcher, if the
classified deletes include at least one file and more than one delete in
total, the emitted `REMOVE_*` broadcasts are exactly the single
`(parent, REMOVE_FOLDER)`; otherwise they are one `REMOVE_FILE` per deleted
file child followed by one `REMOVE_FOLDER` per deleted folder child — in both
cases nothing else in the target list carries a `REMOVE_*` mode. -/
theorem gds_delete_collapse (parent : String) (activities : List ActivityData) :
    (gdsTargets parent activities).filter isRemoveMode =
      (if (gdsClassify (actsByPathValues activities)).deletesFile ≠ [] ∧
          (gdsClassify (actsByPathValues activities)).deletesFile.length +
            (gdsClassify (actsByPathValues activities)).deletesFolder.length
            > 1
       then [(parent, "REMOVE_FOLDER")]
       else
         (gdsClassify (actsByPathValues activities)).deletesFile.map
             (fun act => (act.path, "REMOVE_FILE")) ++
           (gdsClassify (actsByPathValues activities)).deletesFolder.map
             (fun act => (act.path, "REMOVE_FOLDER"))) := by
  obtain ⟨h1, h2, h3⟩ := gdsClassify_inv (actsByPathValues activities)
  set st := gdsClassify (actsByPathValues activities) with hst
  unfold gdsTargets
  rw [← hst, List.filter_append]
  have hhead :
      (match st.files ++ st.folders ++ st.infoFiles with
        | [] => ([] : List (String × String))
        | (mode, act) :: _ => [(act.path, mode)]).filter isRemoveMode = [] := by
    cases hnd : st.files ++ st.folders ++ st.infoFiles with
    | nil => rfl
    | cons q tl =>
      obtain ⟨mode, act⟩ := q
      have hq : mode = "ADD" ∨ mode = "REFRESH" :=
        h3 (mode, act) (hnd ▸ List.mem_cons_self _ _)
      have hp : isRemoveMode (act.path, mode) = false := by
        rcases hq with rfl | rfl <;> rfl
      simp [List.filter, hp]
  rw [hhead, List.append_nil]
  by_cases hcol : st.deletesFile ≠ [] ∧
      st.deletesFile.length + st.deletesFolder.length > 1
  · rw [if_pos hcol, if_pos hcol]
    rfl
  · rw [if_neg hcol, if_neg hcol]
    rw [List.map_append, List.filter_append]
    have hdf : st.deletesFile.map (fun act =>
        (act.path, if act.is_folder then "REMOVE_FOLDER" else "REMOVE_FILE")) =
        st.deletesFile.map (fun act => (act.path, "REMOVE_FILE")) := by
      refine List.map_congr_left ?_
      intro a ha
      rw [h1 a ha]
      rfl
    have hdd : st.deletesFolder.map (fun act =>
        (act.path, if act.is_folder then "REMOVE_FOLDER" else "REMOVE_FILE")) =
        st.deletesFolder.map (fun act => (act.path, "REMOVE_FOLDER")) := by
      refine List.map_congr_left ?_
      intro a ha
      rw [h2 a ha]
      rfl
    rw [hdf, hdd]
    congr 1
    · refine List.filter_eq_self.mpr ?_
      intro x hx
      obtain ⟨a, _, rfl⟩ := List.mem_map.mp hx
      rfl
    · refine List.filter_eq_self.mpr ?_
      intro x hx
      obtain ⟨a, _, rfl⟩ := List.mem_map.mp hx
      rfl

theorem dictGet_cons (k' : String) (v' : ActivityData)
    (m : List (String × ActivityData)) (p : String) :
    dictGet ((k', v') :: m) p = if k' = p then some v' else dictGet m p := by
  by_cases h : k' = p
  · subst h
    simp [dictGet, List.find?_cons]
  · simp [dictGet, List.find?_cons, beq_iff_eq, h]

theorem dictGet_dictAssign (m : List (String × ActivityData)) (k : String)
    (v : ActivityData) (p : String) :
    dictGet (dictAssign m k v) p = if p = k then some v else dictGet m p := by
  induction m with
  | nil =>
    show dictGet [(k, v)] p = _
    rw [dictGet_cons]
    by_cases h : k = p
    · subst h; simp
    · rw [if_neg h, if_neg (Ne.symm h)]
  | cons hd rest ih =>
    obtain ⟨k', v'⟩ := hd
    by_cases hk : k' = k
    · subst hk
      have hassign : dictAssign ((k', v') :: rest) k' v = (k', v) :: rest := by
        simp [dictAssign]
      rw [hassign, dictGet_cons, dictGet_cons]
      by_cases hp : k' = p
      · subst hp; simp
      · rw [if_neg hp, if_neg (Ne.symm hp), if_neg hp]
    · simp only [dictAssign, if_neg hk]
      rw [dictGet_cons, ih, dictGet_cons]
      by_cases hp : k' = p
      · subst hp
        rw [if_pos rfl, if_neg hk, if_pos rfl]
      · rw [if_neg hp, if_neg hp]

theorem dictAssign_fresh (m : List (String × ActivityData)) (k : String)
    (v : ActivityData) (hk : k ∉ m.map Prod.fst) :
    dictAssign m k v = m ++ [(k, v)] := by
  induction m with
  | nil => rfl
  | cons hd rest ih =>
    obtain ⟨k', v'⟩ := hd
    simp only [List.map_cons, List.mem_cons, not_or] at hk
    have hne : ¬ (k' = k) := fun h => hk.1 h.symm
    simp only [dictAssign, if_neg hne, List.cons_append]
    rw [ih hk.2]

theorem dictAssign_mem (m : List (String × ActivityData)) (k : String)
    (v : ActivityData) (q : String × ActivityData)
    (hq : q ∈ dictAssign m k v) : q ∈ m ∨ q = (k, v) := by
  induction m with
  | nil => simpa [dictAssign] using hq
  | cons hd rest ih =>
    obtain ⟨k', v'⟩ := hd
    by_cases hk : k' = k
    · subst hk
      have hassign : dictAssign ((k', v') :: rest) k' v = (k', v) :: rest := by
        simp [dictAssign]
      rw [hassign, List.mem_cons] at hq
      rcases hq with hq | hq
      · exact Or.inr hq
      · exact Or.inl (List.mem_cons_of_mem _ hq)
    · simp only [dictAssign, if_neg hk, List.mem_cons] at hq
      rcases hq with hq | hq
      · exact Or.inl (by rw [hq]; exact List.mem_cons_self _ _)
      · rcases ih hq with hm | hm
        · exact Or.inl (List.mem_cons_of_mem _ hm)
        · exact Or.inr hm

theorem dictAssign_keys (m : List (String × ActivityData)) (k : String)
    (v : ActivityData) :
    (dictAssign m k v).map Prod.fst =
      if k ∈ m.map Prod.fst then m.map Prod.fst
      else m.map Prod.fst ++ [k] := by
  induction m with
  | nil => simp [dictAssign]
  | cons hd rest ih =>
    obtain ⟨k', v'⟩ := hd
    by_cases hk : k' = k
    · subst hk
      simp [dictAssign]
    · have hsym : k ≠ k' := Ne.symm hk
      simp only [dictAssign, if_neg hk, List.map_cons, ih]
      by_cases hmem : k ∈ rest.map Prod.fst
      · simp [hmem, hsym]
      · simp [hmem, hsym]

theorem dictInv_dictAssign (m : List (String × ActivityData))
    (a : ActivityData) (h : DictInv m) : DictInv (dictAssign m a.path a) := by
  obtain ⟨hpair, hkeys⟩ := h
  constructor
  · intro q hq
    rcases dictAssign_mem m a.path a q hq with hm | hm
    · exact hpair q hm
    · rw [hm]
  · rw [dictAssign_keys]
    by_cases hmem : a.path ∈ m.map Prod.fst
    · simpa [hmem] using hkeys
    · simp only [hmem, if_false]
      refine List.Nodup.append hkeys (List.nodup_singleton _) ?_
      intro x hx hx'
      rw [List.mem_singleton] at hx'
      subst hx'
      exact hmem hx

theorem actsByPath_inv (l : List ActivityData) : DictInv (actsByPath l) := by
  suffices h : ∀ (l : List ActivityData) (m : List (String × ActivityData)),
      DictInv m → DictInv (l.foldl (fun acc a => dictAssign acc a.path a) m) by
    exact h l [] ⟨by simp, by simp⟩
  intro l
  induction l with
  | nil => intro m h; exact h
  | cons a tl ih => intro m h; exact ih _ (dictInv_dictAssign m a h)

theorem foldl_dictAssign_fresh (vals : List ActivityData) :
    ∀ m : List (String × ActivityData),
      (∀ a ∈ vals, a.path ∉ m.map Prod.fst) →
      (vals.map (fun a => a.path)).Nodup →
      vals.foldl (fun acc a => dictAssign acc a.path a) m =
        m ++ vals.map (fun a => (a.path, a)) := by
  induction vals with
  | nil => intro m _ _; simp
  | cons a tl ih =>
    intro m hfresh hnd
    simp only [List.foldl_cons]
    rw [dictAssign_fresh m a.path a (hfresh a (List.mem_cons_self _ _))]
    simp only [List.map_cons, List.nodup_cons] at hnd
    rw [ih (m ++ [(a.path, a)]) ?_ hnd.2]
    · simp
    · intro b hb
      simp only [List.map_append, List.mem_append]
      push_neg
      refine ⟨hfresh b (List.mem_cons_of_mem _ hb), ?_⟩
      have : b.path ≠ a.path := by
        intro hcontra
        exact hnd.1 (hcontra ▸ List.mem_map_of_mem (fun x => x.path) hb)
      simpa using this

theorem actsByPath_of_values (l : List ActivityData) :
    actsByPath (actsByPathValues l) = actsByPath l := by
  obtain ⟨hpair, hkeys⟩ := actsByPath_inv l
  have hpathkeys : (actsByPathValues l).map (fun a => a.path) =
      (actsByPath l).map Prod.fst := by
    unfold actsByPathValues
    rw [List.map_map]
    exact List.map_congr_left (fun q hq => hpair q hq)
  have hnd : ((actsByPathValues l).map (fun a => a.path)).Nodup := by
    rw [hpathkeys]; exact hkeys
  have h := foldl_dictAssign_fresh (actsByPathValues l) [] (by simp) hnd
  have h2 : actsByPath (actsByPathValues l) =
      (actsByPathValues l).map (fun a => (a.path, a)) := by
    show (actsByPathValues l).foldl (fun acc a => dictAssign acc a.path a) [] = _
    rw [h]
    simp
  rw [h2]
  show (List.map (fun q => q.2) (actsByPath l)).map (fun a => (a.path, a)) = _
  rw [List.map_map]
  conv_rhs => rw [← List.map_id (actsByPath l)]
  refine List.map_congr_left ?_
  intro q hq
  simp only [Function.comp_apply, id_eq, hpair q hq]

theorem actsByPathValues_idem (l : List ActivityData) :
    actsByPathValues (actsByPathValues l) = actsByPathValues l := by
  show (actsByPath (actsByPathValues l)).map (fun q => q.2) = _
  rw [actsByPath_of_values]
  rfl

theorem actsByPath_append_one (l : List ActivityData) (a : ActivityData) :
    actsByPath (l ++ [a]) = dictAssign (actsByPath l) a.path a := by
  unfold actsByPath
  rw [List.foldl_append]
  rfl

theorem dictGet_actsByPath_last (l : List ActivityData) (p : String) :
    dictGet (actsByPath l) p =
      (l.filter (fun a => a.path == p)).getLast? := by
  induction l using List.reverseRecOn with
  | nil => rfl
  | append_singleton l a ih =>
    rw [actsByPath_append_one, dictGet_dictAssign, List.filter_append]
    by_cases hpa : p = a.path
    · subst hpa
      simp only [if_pos rfl, List.filter_cons, List.filter_nil,
        beq_self_eq_true, if_pos trivial]
      rw [List.getLast?_concat]
    · have hfa : (a.path == p) = false := by simpa using Ne.symm hpa
      simp only [if_neg hpa, List.filter_cons, List.filter_nil, hfa]
      simpa using ih

/-- C10 counterexample: a multi-server flush of parent `/p` holding two
delete events that share one path produces no output at all — the
`parent_activity` construction at dispatchers.py 394 raises
`ValidationError` before the keyed events are consumed — so the
last-appended event `evDupB` does not contribute to the output the claim
predicts for it (the uncollapsed deleted-target list `[evDupB]`), refuting
the claim for the multi-server dispatcher. -/
theorem multiServer_flush_raises :
    multiServerDeletedTargets "/p" [evDupA, evDupB] = .error () ∧
    multiServerDeletedTargets "/p" [evDupA, evDupB] ≠ .ok [evDupB] := by
  constructor
  · rfl
  · intro h
    have h1 : multiServerDeletedTargets "/p" [evDupA, evDupB] =
        .error () := rfl
    rw [h1] at h
    exact Except.noConfusion h

/-- C10 (amended): in the GDS broadcast, Jellyfin and Stash buffered
dispatchers, the flushed events are first keyed by `path`
(`{act.path: act for act in activities}`), so under one parent the value
stored for a path is the last-appended event with that path, and each of
these flush computations yields the same output on the raw buffered list as
on the deduplicated last-per-path list — earlier events sharing a path are
silently ignored.  The multi-server dispatcher keys its buffered events the
same way but never reaches an output: every flush raises `ValidationError`
constructing `parent_activity` (dispatchers.py 394), so there no buffered
event contributes at all. -/
theorem acts_by_path_last_wins (activities : List ActivityData) (p : String)
    (parent : String) (mapping : String → String) :
    dictGet (actsByPath activities) p =
      (activities.filter (fun a => a.path == p)).getLast? ∧
    gdsTargets parent activities =
      gdsTargets parent (actsByPathValues activities) ∧
    jellyfinUpdates mapping activities =
      jellyfinUpdates mapping (actsByPathValues activities) ∧
    stashBuckets mapping activities =
      stashBuckets mapping (actsByPathValues activities) ∧
    multiServerDeletedTargets parent activities = .error () := by
  refine ⟨dictGet_actsByPath_last activities p, ?_, ?_, ?_, rfl⟩
  · unfold gdsTargets
    rw [actsByPathValues_idem]
  · unfold jellyfinUpdates
    rw [actsByPathValues_idem]
  · unfold stashBuckets
    rw [actsByPathValues_idem]

end GdPoller
